import Mathlib

/-!
Verification of the throughput-measurement core of `st.py`: the sliding-window
rate aggregator, the progress monitor, the streaming HTTP response framer of the
download and upload protocols, and the connection-pool orchestration.  Byte
strings are modelled as `List Nat`, wall-clock instants as `ℚ`, Python `int`
sample values as `ℤ`, and a Python callback that can raise is modelled in
`Except Unit`.
-/

namespace St

/-- A Python buffer value held in `rx_buffer`.  The source initialises the
attribute to a `bytearray` but, when the buffer is empty, rebinds it to the
incoming `bytes` object; the two behave differently under `.extend`, so the
model keeps track of which kind currently sits in the attribute. -/
inductive PyBuf where
  | ba : List Nat → PyBuf
  | bs : List Nat → PyBuf
deriving DecidableEq

/-- The byte contents of the buffer. -/
def PyBuf.toList : PyBuf → List Nat
  | .ba l => l
  | .bs l => l

/-- Source `bytes.find(b'\r\n\r\n')` as an option: index of the first occurrence of the
four-byte header terminator CR LF CR LF. -/
def findTerm : List Nat → Option Nat
  | [] => none
  | x :: rest =>
    if (x :: rest).take 4 = [13, 10, 13, 10] then some 0
    else (findTerm rest).map (fun n => n + 1)

/-- The terminator CR LF CR LF occurs at offset `j` of `l`. -/
abbrev termAt (l : List Nat) (j : Nat) : Prop :=
  (l.drop j).take 4 = [13, 10, 13, 10]

/-- The bytes of the literal `"Content-Length: "`, the field name the source's
regular expression matches case-sensitively. -/
def clMarker : List Nat :=
  [67, 111, 110, 116, 101, 110, 116, 45, 76, 101, 110, 103, 116, 104, 58, 32]

/-- ASCII decimal digit test (the `\d` class over bytes). -/
def isDigit (b : Nat) : Bool := 48 ≤ b && b ≤ 57

/-- Value of a run of ASCII digits read in decimal. -/
def digitsVal (l : List Nat) : Nat := l.foldl (fun a b => a * 10 + (b - 48)) 0

/-- Try to match `Content-Length: (\d+)` at the head of `l`: the literal field
name followed by at least one digit, the capture being the maximal digit run. -/
def matchCL (l : List Nat) : Option Nat :=
  if clMarker.isPrefixOf l then
    let ds := (l.drop 16).takeWhile isDigit
    if ds.isEmpty then none else some (digitsVal ds)
  else none

/-- Source `re.search(rb'Content-Length: (\d+)', header)`: scan left to right for the
first position where the pattern matches and return the parsed capture. -/
def searchCL : List Nat → Option Nat
  | [] => none
  | x :: rest =>
    match matchCL (x :: rest) with
    | some v => some v
    | none => searchCL rest

/-- State of one `DownloadSpeedProtocol` instance (the attributes set in
`__init__` and mutated by `request`/`data_received`). -/
structure DLState where
  rx_buffer : PyBuf
  header_received : Bool
  header : List Nat
  content_length : Option Nat
  bytes_received : Nat
  content_bytes_received : Nat
deriving DecidableEq

/-- The protocol state right after `__init__` (the `header` attribute does not
exist yet in the source; it is only ever read after being assigned, so the
model gives it a dummy empty value). -/
def initDL : DLState :=
  { rx_buffer := .ba [], header_received := false, header := [],
    content_length := none, bytes_received := 0, content_bytes_received := 0 }

/-- The buffering step `if self.rx_buffer: self.rx_buffer.extend(data) else:
self.rx_buffer = data`.  An empty buffer is falsy, so the attribute is rebound
to the incoming `bytes`; a non-empty `bytearray` is extended in place; calling
`.extend` on a non-empty `bytes` raises `AttributeError`. -/
def bufAppend (b : PyBuf) (data : List Nat) : Except Unit PyBuf :=
  if b.toList = [] then .ok (.bs data)
  else
    match b with
    | .ba l => .ok (.ba (l ++ data))
    | .bs _ => .error ()

/-- The framing part of `data_received` (everything between the byte-count
bookkeeping and the completion check): count body bytes once headers are in,
otherwise buffer the chunk, look for the header terminator and, on finding it
at offset `k`, record the header slice `[0, k+2)`, the parsed `Content-Length`
(absent meaning `0`) and the body bytes already buffered past `k+4`. -/
def framerFeed (s : DLState) (data : List Nat) : Except Unit DLState :=
  if s.header_received then
    .ok { s with content_bytes_received := s.content_bytes_received + data.length }
  else
    match bufAppend s.rx_buffer data with
    | .error e => .error e
    | .ok buf =>
      match findTerm buf.toList with
      | some k =>
        .ok { s with rx_buffer := buf, header_received := true,
                     header := buf.toList.take (k + 2),
                     content_length := some ((searchCL (buf.toList.take (k + 2))).getD 0),
                     content_bytes_received := buf.toList.length - (k + 4) }
      | none => .ok { s with rx_buffer := buf }

/-- The completion predicate `self.content_bytes_received ==
self.content_length`; comparing an `int` with `None` is `False` in Python. -/
def checkDone (s : DLState) : Bool :=
  match s.content_length with
  | none => false
  | some n => s.content_bytes_received == n

/-- One full `data_received` call of the download protocol: count the chunk in
`bytes_received` (and towards the monitor), run the framer, and on completion
clear the buffer and either re-issue the request (which clears
`header_received`) or close.  Returns `(state, fired, raised)` where `fired`
records that the completion predicate held and `raised` that the call raised
`AttributeError` part-way (leaving the earlier mutations in place). -/
def dlStep (running : Bool) (s : DLState) (data : List Nat) : DLState × Bool × Bool :=
  match framerFeed { s with bytes_received := s.bytes_received + data.length } data with
  | .error _ => ({ s with bytes_received := s.bytes_received + data.length }, false, true)
  | .ok s1 =>
    if checkDone s1 then
      let s2 := { s1 with rx_buffer := PyBuf.ba [] }
      if running then ({ s2 with header_received := false }, true, false)
      else (s2, true, false)
    else (s1, false, false)

/-- Feed a list of chunks to a download protocol, stopping at the first call
whose completion predicate fires; the result carries the total number of
stream bytes consumed up to and including that call, together with the state
after it.  A raising call aborts the run. -/
def feedChunks (running : Bool) : DLState → Nat → List (List Nat) → Except Unit (Option (Nat × DLState))
  | _, _, [] => .ok none
  | s, acc, d :: ds =>
    if (dlStep running s d).2.2 then .error ()
    else if (dlStep running s d).2.1 then .ok (some (acc + d.length, (dlStep running s d).1))
    else feedChunks running (dlStep running s d).1 (acc + d.length) ds

instance {ε α : Type} [DecidableEq ε] [DecidableEq α] : DecidableEq (Except ε α) := fun x y =>
  match x, y with
  | .ok a, .ok b =>
    if h : a = b then isTrue (by rw [h]) else isFalse (fun hc => h (Except.ok.inj hc))
  | .error a, .error b =>
    if h : a = b then isTrue (by rw [h]) else isFalse (fun hc => h (Except.error.inj hc))
  | .ok _, .error _ => isFalse (fun hc => Except.noConfusion hc)
  | .error _, .ok _ => isFalse (fun hc => Except.noConfusion hc)

/-! ## The sliding-window rate aggregator (`SlidingWindow`) -/

/-- State of a `SlidingWindow`: the deque of `(timestamp, value)` samples (head
at the oldest end), the running sum, and the window length in seconds. -/
structure SlidingWindow where
  _data : List (ℚ × ℤ)
  sum : ℤ
  window : ℚ

/-- Source `SlidingWindow.__init__` (the source's default window is `1.0`). -/
def SlidingWindow.init (window : ℚ) : SlidingWindow :=
  { _data := [], sum := 0, window := window }

/-- The `while` loop of `_purge`: pop samples from the oldest end while their
timestamp is strictly below the cutoff, subtracting each popped value from the
running sum. -/
def purgeLoop (cutoff : ℚ) : List (ℚ × ℤ) → ℤ → List (ℚ × ℤ) × ℤ
  | [], s => ([], s)
  | x :: rest, s =>
    if x.1 < cutoff then purgeLoop cutoff rest (s - x.2) else (x :: rest, s)

/-- Source `_purge`, with the clock reading passed explicitly: cutoff is
`now - window`. -/
def SlidingWindow.purge (w : SlidingWindow) (now : ℚ) : SlidingWindow :=
  { w with _data := (purgeLoop (now - w.window) w._data w.sum).1,
           sum := (purgeLoop (now - w.window) w._data w.sum).2 }

/-- Source `value()`: purge, then return the running sum divided by the window
length. -/
def SlidingWindow.value (w : SlidingWindow) (now : ℚ) : ℚ :=
  ((w.purge now).sum : ℚ) / w.window

/-- Source `add(value)`: add to the running sum, append the `(now, value)` sample,
then purge. -/
def SlidingWindow.add (w : SlidingWindow) (now : ℚ) (v : ℤ) : SlidingWindow :=
  ({ w with sum := w.sum + v, _data := w._data ++ [(now, v)] }).purge now

/-- Feed a whole sample sequence to a fresh window of length `W`, each `add`
performed at its sample's timestamp. -/
def runAdds (W : ℚ) (l : List (ℚ × ℤ)) : SlidingWindow :=
  l.foldl (fun w s => w.add s.1 s.2) (SlidingWindow.init W)

/-! ## The progress monitor (`Monitor`) -/

/-- State of a `Monitor` (attributes of `Monitor.__init__`). -/
structure Monitor where
  _context : String
  _report_interval : ℚ
  _runtime : ℚ
  _next_report : ℚ
  _end_time : ℚ
  _bytes_received : ℤ
  running : Bool
  _sliding_window : SlidingWindow

/-- Source `Monitor.__init__` with the construction instant passed explicitly: the
report interval is fixed at `0.1`, the first report is due one interval from
now, the end time is `now + duration`, and the window is a fresh
`SlidingWindow` of length `1`. -/
def Monitor.init (context : String) (now duration : ℚ) : Monitor :=
  { _context := context, _report_interval := 1/10, _runtime := duration,
    _next_report := now + 1/10, _end_time := now + duration,
    _bytes_received := 0, running := true,
    _sliding_window := SlidingWindow.init 1 }

/-- Source `Monitor.add(n)` at clock reading `now`.  Returns the new state together
with `(newline, report)`: whether the call printed the final newline (the
running flag's single flip) and whether it printed a rate line.  The rate line
reads `value()`, which purges the window, hence the extra purge in that
branch; `_bytes_received` is incremented at the end of every call. -/
def Monitor.add (m : Monitor) (now : ℚ) (n : ℤ) : Monitor × Bool × Bool :=
  if m._end_time ≤ now then
    if m.running then
      ({ m with _sliding_window := m._sliding_window.add now n, running := false,
                _bytes_received := m._bytes_received + n }, true, false)
    else
      ({ m with _sliding_window := m._sliding_window.add now n,
                _bytes_received := m._bytes_received + n }, false, false)
  else if m._next_report ≤ now then
    ({ m with _sliding_window := (m._sliding_window.add now n).purge now,
              _next_report := m._next_report + m._report_interval,
              _bytes_received := m._bytes_received + n }, false, true)
  else
    ({ m with _sliding_window := m._sliding_window.add now n,
              _bytes_received := m._bytes_received + n }, false, false)

/-- Feed a sequence of `(now, n)` calls to a monitor; returns the final state
and the per-call newline flags. -/
def runMonitor (m : Monitor) : List (ℚ × ℤ) → Monitor × List Bool
  | [] => (m, [])
  | c :: cs =>
    let r := m.add c.1 c.2
    let rest := runMonitor r.1 cs
    (rest.1, r.2.1 :: rest.2)

/-- Keep only the first `true` of a boolean trace (the shape a
single-transition event trace must have). -/
def markFirst : List Bool → List Bool
  | [] => []
  | b :: bs => if b then true :: List.replicate bs.length false else false :: markFirst bs

/-! ## The upload protocol (`UploadSpeedProtocol`) -/

/-- State of one `UploadSpeedProtocol` instance.  `content_length` and
`content_bytes_received` are `none` while the attributes do not exist
(`__init__` never sets them); `header` likewise starts as a dummy since it is
only read after assignment. -/
structure ULState where
  bytes_sent : Nat
  header_received : Bool
  rx_buffer : PyBuf
  header : List Nat
  content_length : Option Nat
  content_bytes_received : Option Nat
deriving DecidableEq

/-- The upload protocol state right after `__init__`. -/
def initUL : ULState :=
  { bytes_sent := 0, header_received := false, rx_buffer := .ba [], header := [],
    content_length := none, content_bytes_received := none }

/-- Source `len(self._data)` for `self._data = bytes(65536)`. -/
def uploadPayloadLen : Nat := 65536

/-- The POST request line and headers written by `UploadSpeedProtocol.request`. -/
def uploadReq (path netloc : String) : String :=
  "POST " ++ path ++ " HTTP/1.1\r\nHost: " ++ netloc ++
    "\r\nContent-Length: 65536\r\nUser-Agent: x/1.0\r\n\r\n"

/-- Source `UploadSpeedProtocol.request`: write the request then the payload, add
both lengths to `bytes_sent`, report the same amount to the monitor (the
returned number), and clear `header_received`. -/
def uploadRequest (path netloc : String) (s : ULState) : ULState × Nat :=
  ({ s with bytes_sent := s.bytes_sent + ((uploadReq path netloc).length + uploadPayloadLen),
            header_received := false },
   (uploadReq path netloc).length + uploadPayloadLen)

/-- The framing part of `UploadSpeedProtocol.data_received`; reading the
never-initialised `content_bytes_received` attribute raises. -/
def uploadFeed (s : ULState) (data : List Nat) : Except Unit ULState :=
  if s.header_received then
    match s.content_bytes_received with
    | none => .error ()
    | some c => .ok { s with content_bytes_received := some (c + data.length) }
  else
    match bufAppend s.rx_buffer data with
    | .error e => .error e
    | .ok buf =>
      match findTerm buf.toList with
      | some k =>
        .ok { s with rx_buffer := buf, header_received := true,
                     header := buf.toList.take (k + 2),
                     content_length := some ((searchCL (buf.toList.take (k + 2))).getD 0),
                     content_bytes_received := some (buf.toList.length - (k + 4)) }
      | none => .ok { s with rx_buffer := buf }

/-- One full `UploadSpeedProtocol.data_received` call: run the framer, then
evaluate the completion predicate (reading either missing attribute raises);
on completion clear the buffer and, while the monitor is running, issue the
next request.  The returned list collects the amounts reported to the monitor
during the call (only a re-issued request reports anything). -/
def uploadData (path netloc : String) (running : Bool) (s : ULState) (data : List Nat) :
    Except Unit (ULState × List Nat) :=
  match uploadFeed s data with
  | .error e => .error e
  | .ok s1 =>
    match s1.content_bytes_received, s1.content_length with
    | some a, some b =>
      if a == b then
        let s2 := { s1 with rx_buffer := PyBuf.ba [] }
        if running then
          let r := uploadRequest path netloc s2
          .ok (r.1, [r.2])
        else .ok (s2, [])
      else .ok (s1, [])
    | _, _ => .error ()

/-- Drive an upload connection through a list of `(running, data)` arrival
events, accumulating the amounts reported to the monitor. -/
def runUploadGo (path netloc : String) : ULState → List Nat → List (Bool × List Nat) →
    Except Unit (ULState × List Nat)
  | s, reports, [] => .ok (s, reports)
  | s, reports, e :: es =>
    match uploadData path netloc e.1 s e.2 with
    | .error err => .error err
    | .ok r => runUploadGo path netloc r.1 (reports ++ r.2) es

/-- A whole upload-connection run: `connection_made` issues the first request
(which reports its size), then the data events are processed. -/
def runUpload (path netloc : String) (events : List (Bool × List Nat)) :
    Except Unit (ULState × List Nat) :=
  runUploadGo path netloc (uploadRequest path netloc initUL).1
    [(uploadRequest path netloc initUL).2] events

/-- Source `connection_lost` resolves the upload connection's future with
`bytes_sent`. -/
def ULState.resolve (s : ULState) : Nat := s.bytes_sent

/-- The monitor reports of a successful upload run. -/
def runReports (path netloc : String) (events : List (Bool × List Nat)) : List Nat :=
  match runUpload path netloc events with
  | .ok r => r.2
  | .error _ => []

/-- The final `bytes_sent` of a successful upload run. -/
def runBytesSent (path netloc : String) (events : List (Bool × List Nat)) : Nat :=
  match runUpload path netloc events with
  | .ok r => r.1.bytes_sent
  | .error _ => 0

/-- The value a successful upload run resolves with. -/
def runResolve (path netloc : String) (events : List (Bool × List Nat)) : Nat :=
  match runUpload path netloc events with
  | .ok r => r.1.resolve
  | .error _ => 0

/-- The upload protocol state after `connection_made` has issued the first
request and before any response data has arrived. -/
def afterFirstRequest (path netloc : String) : ULState :=
  (uploadRequest path netloc initUL).1

/-! ## The orchestrator (`create_downloader`, `main`) -/

/-- Replace the element at index `i` by `f` applied to it (out-of-range
indices leave the list unchanged). -/
def updateAt {α : Type} : List α → Nat → (α → α) → List α
  | [], _, _ => []
  | x :: rest, 0, f => f x :: rest
  | x :: rest, n + 1, f => x :: updateAt rest n f

/-- The pool of fresh download connections `main` opens. -/
def poolInit (n : Nat) : List DLState := List.replicate n initDL

/-- Deliver one socket event `(connection index, monitor flag, data)` to its
connection. -/
def deliver (pool : List DLState) (e : Nat × Bool × List Nat) : List DLState :=
  updateAt pool e.1 (fun s => (dlStep e.2.1 s e.2.2).1)

/-- Run the pool under an arbitrary interleaving of per-connection data
events. -/
def runPool (pool : List DLState) (sched : List (Nat × Bool × List Nat)) : List DLState :=
  sched.foldl deliver pool

/-- Source `connection_lost` resolves a download connection's future with
`bytes_received`. -/
def resolveValue (s : DLState) : Nat := s.bytes_received

/-- Source `main`'s result for a pool of 32 connections: the sum of the values the
connections resolve with. -/
def orchestratorTotal (sched : List (Nat × Bool × List Nat)) : Nat :=
  ((runPool (poolInit 32) sched).map resolveValue).sum

/-- The bytes delivered to connection `i` by a schedule. -/
def connBytes (i : Nat) (sched : List (Nat × Bool × List Nat)) : Nat :=
  ((sched.filter (fun e => e.1 == i)).map (fun e => e.2.2.length)).sum

/-- A download connection run in isolation on its own event trace resolves
with its accumulated `bytes_received`. -/
def connResolve (events : List (Bool × List Nat)) : Nat :=
  (events.foldl (fun st e => (dlStep e.1 st e.2).1) initDL).bytes_received

/-- Source `create_downloader`: `loop.create_connection` either raises (connect
failure) or eventually yields the connection's resolved byte total. -/
def createDownloader (conn : Option (List (Bool × List Nat))) : Except Unit Nat :=
  match conn with
  | none => .error ()
  | some events => .ok (connResolve events)

/-- The sequential `[await create_downloader(...) for _ in range(32)]`
followed by `asyncio.gather`: the first connect failure propagates. -/
def gatherCreate : List (Option (List (Bool × List Nat))) → Except Unit (List Nat)
  | [] => .ok []
  | c :: cs =>
    match createDownloader c with
    | .error e => .error e
    | .ok v =>
      match gatherCreate cs with
      | .error e => .error e
      | .ok vs => .ok (v :: vs)

/-- Source `main(server, duration)` with the per-connection outcomes abstracted as
input: create all connections, gather, and sum the results. -/
def mainDL (conns : List (Option (List (Bool × List Nat)))) : Except Unit Nat :=
  match gatherCreate conns with
  | .error e => .error e
  | .ok vs => .ok vs.sum

/-! ## Concrete byte streams used by counterexamples and witnesses -/

/-- The bytes of `"Content-Length: 1\r\n\r\nX"`: a well-formed response whose
header terminator sits at offset 17 and whose body is the single byte `X`. -/
def respCL1 : List Nat :=
  [67, 111, 110, 116, 101, 110, 116, 45, 76, 101, 110, 103, 116, 104, 58, 32,
   49, 13, 10, 13, 10, 88]

/-- The bytes of `"HTTP/1.1 200 OK\r\nContent-Length: 2\r\n\r\nAB"`. -/
def respCL2 : List Nat :=
  [72, 84, 84, 80, 47, 49, 46, 49, 32, 50, 48, 48, 32, 79, 75, 13, 10,
   67, 111, 110, 116, 101, 110, 116, 45, 76, 101, 110, 103, 116, 104, 58, 32,
   50, 13, 10, 13, 10, 65, 66]

/-- The bytes of `"A\r\n\r\n"`: a header-only response with no
`Content-Length` field. -/
def hdrA : List Nat := [65, 13, 10, 13, 10]

/-- The bytes of `"AB\r\n\r\n"`. -/
def buf9 : List Nat := [65, 66, 13, 10, 13, 10]

/-- Invariant tying a download protocol state to the prefix `p` of the
response stream `s` (whose header terminator is first found at `k`) consumed
so far: either nothing has been consumed, or one terminator-free nonempty
chunk sits in the buffer as an immutable `bytes` object, or the header has
been parsed and the body count tracks the consumed length. -/
def FramerInv (s : List Nat) (k : Nat) (p : List Nat) (st : DLState) : Prop :=
  (p = [] ∧ st.rx_buffer.toList = [] ∧ st.header_received = false
    ∧ st.content_length = none ∧ st.content_bytes_received = 0)
  ∨ (p ≠ [] ∧ p.length < k + 4 ∧ st.rx_buffer = .bs p ∧ st.header_received = false
    ∧ st.content_length = none ∧ st.content_bytes_received = 0)
  ∨ (k + 4 ≤ p.length ∧ st.header_received = true
    ∧ st.content_length = some ((searchCL (s.take (k + 2))).getD 0)
    ∧ st.content_bytes_received = p.length - (k + 4))

/-! ## Lemmas about the terminator search -/

theorem termAt_le_length {l : List Nat} {j : Nat} (h : termAt l j) : j + 4 ≤ l.length := by
  have hlen : ((l.drop j).take 4).length = 4 := by rw [h]; rfl
  rw [List.length_take, List.length_drop] at hlen
  omega

theorem take_of_app {α : Type} {p t : List α} {n : Nat} (h : n ≤ p.length) :
    (p ++ t).take n = p.take n := by
  rw [List.take_append_eq_append_take]
  have h0 : n - p.length = 0 := by omega
  rw [h0, List.take_zero, List.append_nil]

theorem termAt_append {l t : List Nat} {j : Nat} (h : termAt l j) : termAt (l ++ t) j := by
  have h4 := termAt_le_length h
  show ((l ++ t).drop j).take 4 = _
  rw [List.drop_append_eq_append_drop]
  have h0 : j - l.length = 0 := by omega
  rw [h0, List.drop_zero]
  rw [take_of_app (by rw [List.length_drop]; omega)]
  exact h

theorem termAt_of_append {l t : List Nat} {j : Nat} (h4 : j + 4 ≤ l.length)
    (h : termAt (l ++ t) j) : termAt l j := by
  have h' : ((l ++ t).drop j).take 4 = [13, 10, 13, 10] := h
  rw [List.drop_append_eq_append_drop] at h'
  have h0 : j - l.length = 0 := by omega
  rw [h0, List.drop_zero] at h'
  rwa [take_of_app (by rw [List.length_drop]; omega)] at h'

theorem findTerm_eq_some_iff {l : List Nat} {k : Nat} :
    findTerm l = some k ↔ termAt l k ∧ ∀ j, j < k → ¬ termAt l j := by
  induction l generalizing k with
  | nil => simp [findTerm, termAt]
  | cons a l ih =>
    by_cases h : (a :: l).take 4 = [13, 10, 13, 10]
    · simp only [findTerm, if_pos h]
      constructor
      · intro he
        have hk : k = 0 := by injection he with he; omega
        subst hk
        exact ⟨by simpa [termAt] using h, by omega⟩
      · rintro ⟨h1, h2⟩
        cases k with
        | zero => rfl
        | succ k' =>
          have h0 : termAt (a :: l) 0 := by simpa [termAt] using h
          exact absurd h0 (h2 0 (Nat.succ_pos _))
    · simp only [findTerm, if_neg h]
      constructor
      · intro he
        obtain ⟨k', hk', hkk⟩ := Option.map_eq_some'.mp he
        subst hkk
        obtain ⟨ht, hmin⟩ := ih.mp hk'
        refine ⟨by simpa [termAt, List.drop_succ_cons] using ht, ?_⟩
        intro j hj
        cases j with
        | zero => intro hc; exact h (by simpa [termAt] using hc)
        | succ j' =>
          intro hc
          exact hmin j' (by omega) (by simpa [termAt, List.drop_succ_cons] using hc)
      · rintro ⟨ht, hmin⟩
        cases k with
        | zero => exact absurd (by simpa [termAt] using ht) h
        | succ k' =>
          have ht' : termAt l k' := by simpa [termAt, List.drop_succ_cons] using ht
          have hmin' : ∀ j, j < k' → ¬ termAt l j := by
            intro j hj hc
            exact hmin (j + 1) (by omega) (by simpa [termAt, List.drop_succ_cons] using hc)
          rw [ih.mpr ⟨ht', hmin'⟩]
          rfl

theorem findTerm_eq_none_iff {l : List Nat} :
    findTerm l = none ↔ ∀ j, ¬ termAt l j := by
  induction l with
  | nil => simp [findTerm, termAt]
  | cons a l ih =>
    by_cases h : (a :: l).take 4 = [13, 10, 13, 10]
    · simp only [findTerm, if_pos h]
      constructor
      · intro he; exact absurd he (by simp)
      · intro hall; exact absurd (show termAt (a :: l) 0 by simpa [termAt] using h) (hall 0)
    · simp only [findTerm, if_neg h]
      rw [Option.map_eq_none', ih]
      constructor
      · intro hall j
        cases j with
        | zero => intro hc; exact h (by simpa [termAt] using hc)
        | succ j' => intro hc; exact hall j' (by simpa [termAt, List.drop_succ_cons] using hc)
      · intro hall j hc
        exact hall (j + 1) (by simpa [termAt, List.drop_succ_cons] using hc)

theorem findTerm_short {p t : List Nat} {k : Nat} (h : findTerm (p ++ t) = some k)
    (hlt : p.length < k + 4) : findTerm p = none := by
  rw [findTerm_eq_none_iff]
  intro j hj
  have hj4 := termAt_le_length hj
  exact (findTerm_eq_some_iff.mp h).2 j (by omega) (termAt_append hj)

theorem findTerm_long {p t : List Nat} {k : Nat} (h : findTerm (p ++ t) = some k)
    (hge : k + 4 ≤ p.length) : findTerm p = some k := by
  obtain ⟨ht, hmin⟩ := findTerm_eq_some_iff.mp h
  rw [findTerm_eq_some_iff]
  exact ⟨termAt_of_append hge ht, fun j hj hc => hmin j hj (termAt_append hc)⟩

/-! ## The header-found step of the framer -/

theorem checkDone_eq {s : DLState} (h : checkDone s = true) :
    s.content_length = some s.content_bytes_received := by
  unfold checkDone at h
  rcases hcl : s.content_length with _ | n
  · rw [hcl] at h
    cases h
  · rw [hcl] at h
    simp only [beq_iff_eq] at h
    rw [h]

theorem checkDone_of_eq {s : DLState} (h : s.content_length = some s.content_bytes_received) :
    checkDone s = true := by
  unfold checkDone
  rw [h]
  simp

/-- Equation lemma: the framer step with headers already received just counts
body bytes. -/
theorem framerFeed_hr (s : DLState) (data : List Nat) (hhr : s.header_received = true) :
    framerFeed s data =
      .ok { s with content_bytes_received := s.content_bytes_received + data.length } := by
  unfold framerFeed
  rw [hhr]
  rfl

/-- Equation lemma: the framer step before headers, after a successful buffer
update, branches on the terminator search. -/
theorem framerFeed_ok_buf (s : DLState) (data : List Nat) (buf : PyBuf)
    (hhr : s.header_received = false) (hba : bufAppend s.rx_buffer data = .ok buf) :
    framerFeed s data =
      match findTerm buf.toList with
      | some k =>
        .ok { s with rx_buffer := buf, header_received := true,
                     header := buf.toList.take (k + 2),
                     content_length := some ((searchCL (buf.toList.take (k + 2))).getD 0),
                     content_bytes_received := buf.toList.length - (k + 4) }
      | none => .ok { s with rx_buffer := buf } := by
  unfold framerFeed
  rw [hhr, hba]
  rfl

theorem framerFeed_found (s : DLState) (data : List Nat) (buf : PyBuf) (k : Nat)
    (hhr : s.header_received = false) (hba : bufAppend s.rx_buffer data = .ok buf)
    (hfind : findTerm buf.toList = some k) :
    framerFeed s data =
      .ok { s with rx_buffer := buf, header_received := true,
                   header := buf.toList.take (k + 2),
                   content_length := some ((searchCL (buf.toList.take (k + 2))).getD 0),
                   content_bytes_received := buf.toList.length - (k + 4) } := by
  rw [framerFeed_ok_buf s data buf hhr hba, hfind]

theorem framerFeed_nofind (s : DLState) (data : List Nat) (buf : PyBuf)
    (hhr : s.header_received = false) (hba : bufAppend s.rx_buffer data = .ok buf)
    (hfind : findTerm buf.toList = none) :
    framerFeed s data = .ok { s with rx_buffer := buf } := by
  rw [framerFeed_ok_buf s data buf hhr hba, hfind]

theorem framerFeed_raise (s : DLState) (data : List Nat)
    (hhr : s.header_received = false) (hba : bufAppend s.rx_buffer data = .error ()) :
    framerFeed s data = .error () := by
  unfold framerFeed
  rw [hhr, hba]
  rfl

/-- Equation lemma: `dlStep` when the framing part raises. -/
theorem dlStep_feed_error (running : Bool) (s : DLState) (data : List Nat)
    (hfe : framerFeed { s with bytes_received := s.bytes_received + data.length } data = .error ()) :
    dlStep running s data = ({ s with bytes_received := s.bytes_received + data.length }, false, true) := by
  unfold dlStep
  rw [hfe]

/-- Equation lemma: `dlStep` when the framing part returns. -/
theorem dlStep_feed_ok (running : Bool) (s : DLState) (data : List Nat) (s1 : DLState)
    (hfe : framerFeed { s with bytes_received := s.bytes_received + data.length } data = .ok s1) :
    dlStep running s data =
      if checkDone s1 then
        (if running then ({ s1 with rx_buffer := PyBuf.ba [], header_received := false }, true, false)
         else ({ s1 with rx_buffer := PyBuf.ba [] }, true, false))
      else (s1, false, false) := by
  unfold dlStep
  rw [hfe]

/-- A state with an empty bytearray buffer, cleared header flag, and a stale
equal body-count/content-length pair fires the completion predicate on any
chunk that contains no terminator, without raising. -/
theorem stale_refire (r : Bool) (st : DLState) (d : List Nat)
    (hhr : st.header_received = false) (hrx : st.rx_buffer = PyBuf.ba [])
    (hcd : st.content_length = some st.content_bytes_received)
    (hd : findTerm d = none) :
    (dlStep r st d).2.1 = true ∧ (dlStep r st d).2.2 = false := by
  have hba : bufAppend ({ st with bytes_received := st.bytes_received + d.length } : DLState).rx_buffer d = .ok (.bs d) := by
    rw [show ({ st with bytes_received := st.bytes_received + d.length } : DLState).rx_buffer = st.rx_buffer from rfl, hrx]
    rfl
  have hfe : framerFeed { st with bytes_received := st.bytes_received + d.length } d
      = .ok { st with bytes_received := st.bytes_received + d.length, rx_buffer := PyBuf.bs d } :=
    framerFeed_nofind _ d (.bs d) hhr hba hd
  rw [dlStep_feed_ok r st d _ hfe]
  have hcd2 : checkDone { st with bytes_received := st.bytes_received + d.length, rx_buffer := PyBuf.bs d } = true :=
    checkDone_of_eq hcd
  rw [if_pos hcd2]
  cases r
  · rw [if_neg (by simp : ¬(false = true))]
    exact ⟨rfl, rfl⟩
  · rw [if_pos rfl]
    exact ⟨rfl, rfl⟩

/-- C9 (counterexample): on the buffer `"AB\r\n\r\n"` the terminator is first
found at offset `k = 2`, and the header block the framer stores is the byte
range `[0, k+2)`, which differs from the byte range `[0, k+4)` stated by the
claim. -/
theorem header_extraction_counterexample :
    findTerm buf9 = some 2
    ∧ (framerFeed initDL buf9).toOption.map DLState.header = some (buf9.take (2 + 2))
    ∧ (framerFeed initDL buf9).toOption.map DLState.header ≠ some (buf9.take (2 + 4)) := by
  decide

/-- C9 (amended): whenever `header_received` is unset, the buffer attribute is
a bytearray holding `l`, and the CRLF-CRLF terminator is first found at offset
`k` of the extended buffer, the framer step marks the header received, stores
the byte range `[0, k+2)` as the header block, sets the content length to the
result of the case-sensitive `Content-Length` search over that block (absent
meaning `0`), and initialises the body-received count to the buffer length
minus `(k+4)`. -/
theorem header_extraction (s : DLState) (data : List Nat) (l : List Nat) (k : Nat)
    (hhr : s.header_received = false) (hrx : s.rx_buffer = .ba l)
    (hterm : termAt (l ++ data) k) (hfirst : ∀ j, j < k → ¬ termAt (l ++ data) j) :
    ∃ st, framerFeed s data = .ok st
      ∧ st.header_received = true
      ∧ st.header = (l ++ data).take (k + 2)
      ∧ st.content_length = some ((searchCL ((l ++ data).take (k + 2))).getD 0)
      ∧ st.content_bytes_received = (l ++ data).length - (k + 4) := by
  have hfind : findTerm (l ++ data) = some k := findTerm_eq_some_iff.mpr ⟨hterm, hfirst⟩
  have hbuf : ∃ buf : PyBuf, bufAppend s.rx_buffer data = .ok buf ∧ buf.toList = l ++ data := by
    rw [hrx]
    by_cases hl : l = []
    · subst hl
      exact ⟨.bs data, rfl, rfl⟩
    · refine ⟨.ba (l ++ data), ?_, rfl⟩
      simp [bufAppend, PyBuf.toList, hl]
  obtain ⟨buf, hb, hbl⟩ := hbuf
  have hfind2 : findTerm buf.toList = some k := by rw [hbl]; exact hfind
  have heq := framerFeed_found s data buf k hhr hb hfind2
  rw [hbl] at heq
  exact ⟨_, heq, rfl, rfl, rfl, rfl⟩

/-- C5 (counterexample): feeding the complete response
`"HTTP/1.1 200 OK\r\nContent-Length: 2\r\n\r\nAB"` to a fresh download
protocol fires the completion predicate, but afterwards the body-received
counter still holds `2` (it is not reset to zero) and the content length still
holds `some 2`; on the next chunk `"X"`, which contains no header terminator,
the stale pair satisfies the completion predicate again during the next
response's header phase. -/
theorem framer_stale_completion_counterexample :
    (dlStep true initDL respCL2).2.1 = true
    ∧ (dlStep true initDL respCL2).1.content_bytes_received = 2
    ∧ (dlStep true initDL respCL2).1.content_length = some 2
    ∧ (dlStep true initDL respCL2).1.header_received = false
    ∧ findTerm [88] = none
    ∧ (dlStep true (dlStep true initDL respCL2).1 [88]).2.1 = true := by
  decide

/-- C5 (amended): on a completion with the monitor still running, the caller
clears the receive buffer and (through the re-issued request) the
header-received flag, but the body-received counter and the content length are
not reset: they keep the equal values the framer left them with, so any
subsequent chunk that does not contain the header terminator satisfies the
completion predicate again with the stale pair. -/
theorem framer_state_after_completion (s : DLState) (data : List Nat)
    (hf : (dlStep true s data).2.1 = true) :
    (dlStep true s data).1.rx_buffer = PyBuf.ba []
    ∧ (dlStep true s data).1.header_received = false
    ∧ (∃ sf, framerFeed { s with bytes_received := s.bytes_received + data.length } data = .ok sf
        ∧ (dlStep true s data).1.content_bytes_received = sf.content_bytes_received
        ∧ (dlStep true s data).1.content_length = sf.content_length)
    ∧ (dlStep true s data).1.content_length = some ((dlStep true s data).1.content_bytes_received)
    ∧ ∀ (r : Bool) (d : List Nat), findTerm d = none →
        (dlStep r ((dlStep true s data).1) d).2.1 = true
        ∧ (dlStep r ((dlStep true s data).1) d).2.2 = false := by
  rcases hfeed : framerFeed { s with bytes_received := s.bytes_received + data.length } data
    with e | s1
  · cases e
    rw [dlStep_feed_error true s data hfeed] at hf
    cases hf
  · rw [dlStep_feed_ok true s data s1 hfeed] at hf ⊢
    by_cases hcd : checkDone s1 = true
    · rw [if_pos hcd, if_pos rfl] at hf ⊢
      refine ⟨rfl, rfl, ⟨s1, rfl, rfl, rfl⟩, checkDone_eq hcd, ?_⟩
      intro r d hd
      exact stale_refire r _ d rfl rfl (checkDone_eq hcd) hd
    · rw [if_neg hcd] at hf
      cases hf

/-- C10: the upload protocol's constructor never initialises
`content_bytes_received` or `content_length`, so whenever the first chunk of
response data after a request does not contain the CRLF-CRLF terminator, the
completion check reads a missing attribute and `data_received` raises. -/
theorem upload_uninitialized_error (path netloc : String) (running : Bool) (data : List Nat)
    (h : findTerm data = none) :
    uploadData path netloc running (afterFirstRequest path netloc) data = .error () := by
  unfold uploadData uploadFeed afterFirstRequest uploadRequest initUL
  simp [bufAppend, PyBuf.toList, h]

/-- C10 (witness): the single byte `"H"` contains no terminator and makes the
first `data_received` of a fresh upload connection raise. -/
theorem upload_uninitialized_error_witness :
    uploadData "/u" "h" true (afterFirstRequest "/u" "h") [72] = .error () :=
  upload_uninitialized_error "/u" "h" true [72] (by decide)

/-- C2 (code bug): the complete response `"Content-Length: 1\r\n\r\nX"` fed in
one chunk completes without raising, and the first five bytes alone neither
complete nor raise; but delivering the remainder as a second chunk raises
`AttributeError` (`bytes` has no `extend`), so with split chunking the framer
never reaches completion, while whole-message chunking completes after 22
bytes. -/
theorem framer_chunk_split_crash :
    (dlStep true initDL respCL1).2.1 = true
    ∧ (dlStep true initDL respCL1).2.2 = false
    ∧ (dlStep true initDL (respCL1.take 5)).2 = (false, false)
    ∧ (dlStep true (dlStep true initDL (respCL1.take 5)).1 (respCL1.drop 5)).2.2 = true
    ∧ feedChunks true initDL 0 [respCL1] = .ok (some (22, (dlStep true initDL respCL1).1))
    ∧ feedChunks true initDL 0 [respCL1.take 5, respCL1.drop 5] = .error () := by
  decide

/-! ## Witnesses for the header-extraction and reset theorems -/

theorem bufAppend_empty (b : PyBuf) (data : List Nat) (h : b.toList = []) :
    bufAppend b data = .ok (.bs data) := by
  unfold bufAppend
  rw [h]
  rfl

theorem bufAppend_bs_ne (p data : List Nat) (h : p ≠ []) :
    bufAppend (.bs p) data = .error () := by
  unfold bufAppend
  rw [if_neg (by simpa [PyBuf.toList] using h)]

theorem checkDone_some {st : DLState} {b : Nat} (h : st.content_length = some b) :
    checkDone st = (st.content_bytes_received == b) := by
  unfold checkDone
  rw [h]

theorem feedChunks_cons (running : Bool) (st : DLState) (acc : Nat) (d : List Nat)
    (ds : List (List Nat)) (s' : DLState) (b1 b2 : Bool)
    (h : dlStep running st d = (s', b1, b2)) :
    feedChunks running st acc (d :: ds) =
      if b2 then .error ()
      else if b1 then .ok (some (acc + d.length, s'))
      else feedChunks running s' (acc + d.length) ds := by
  have he : feedChunks running st acc (d :: ds)
      = (if (dlStep running st d).2.2 then .error ()
         else if (dlStep running st d).2.1 then .ok (some (acc + d.length, (dlStep running st d).1))
         else feedChunks running (dlStep running st d).1 (acc + d.length) ds) := rfl
  rw [he, h]

theorem length_le_of_app {p t s : List Nat} (h : p ++ t = s) : p.length ≤ s.length := by
  subst h
  rw [List.length_append]
  omega

theorem take_eq_of_app {p t s : List Nat} (h : p ++ t = s) {n : Nat} (hn : n ≤ p.length) :
    s.take n = p.take n := by
  subst h
  exact take_of_app hn

/-- C9 (witness): the amended header-extraction theorem evaluated on the
concrete buffer `"AB\r\n\r\n"` with the terminator first found at offset 2. -/
theorem header_extraction_witness :
    ∃ st, framerFeed initDL buf9 = .ok st
      ∧ st.header_received = true
      ∧ st.header = (([] : List Nat) ++ buf9).take (2 + 2)
      ∧ st.content_length = some ((searchCL ((([] : List Nat) ++ buf9).take (2 + 2))).getD 0)
      ∧ st.content_bytes_received = (([] : List Nat) ++ buf9).length - (2 + 4) :=
  header_extraction initDL buf9 [] 2 rfl rfl (by decide) (by decide)

/-- C5 (witness): the amended reset theorem evaluated on the completed
response `"HTTP/1.1 200 OK\r\nContent-Length: 2\r\n\r\nAB"`. -/
theorem framer_state_after_completion_witness :
    (dlStep true initDL respCL2).1.rx_buffer = PyBuf.ba []
    ∧ (dlStep true initDL respCL2).1.header_received = false
    ∧ (∃ sf, framerFeed { initDL with bytes_received := initDL.bytes_received + respCL2.length } respCL2 = .ok sf
        ∧ (dlStep true initDL respCL2).1.content_bytes_received = sf.content_bytes_received
        ∧ (dlStep true initDL respCL2).1.content_length = sf.content_length)
    ∧ (dlStep true initDL respCL2).1.content_length = some ((dlStep true initDL respCL2).1.content_bytes_received)
    ∧ ∀ (r : Bool) (d : List Nat), findTerm d = none →
        (dlStep r ((dlStep true initDL respCL2).1) d).2.1 = true
        ∧ (dlStep r ((dlStep true initDL respCL2).1) d).2.2 = false :=
  framer_state_after_completion initDL respCL2 (by decide)

/-! ## Chunked processing of a whole well-formed response stream -/

theorem framerFeed_found_projs (st : DLState) (d : List Nat) (k : Nat)
    (hhr : st.header_received = false) (hrxe : st.rx_buffer.toList = [])
    (hfd : findTerm d = some k) :
    ∃ st', framerFeed st d = .ok st'
      ∧ st'.header_received = true
      ∧ st'.content_length = some ((searchCL (d.take (k + 2))).getD 0)
      ∧ st'.content_bytes_received = d.length - (k + 4)
      ∧ st'.bytes_received = st.bytes_received := by
  have hba := bufAppend_empty st.rx_buffer d hrxe
  exact ⟨_, framerFeed_found st d (.bs d) k hhr hba hfd, rfl, rfl, rfl, rfl⟩

/-- Processing any chunking of a well-formed response stream from a state
satisfying the invariant either raises (the header was split across chunks) or
reports completion exactly when the whole stream has been consumed, with the
body count equal to the declared content length. -/
theorem feedChunks_wf (s : List Nat) (k : Nat) (hk : findTerm s = some k)
    (hlen : s.length = k + 4 + (searchCL (s.take (k + 2))).getD 0) :
    ∀ (chunks : List (List Nat)) (p : List Nat) (st : DLState),
      p ++ chunks.flatten = s → p.length < s.length → FramerInv s k p st →
      feedChunks true st p.length chunks = .error ()
      ∨ ∃ st', feedChunks true st p.length chunks = .ok (some (s.length, st'))
          ∧ st'.content_bytes_received = (searchCL (s.take (k + 2))).getD 0 := by
  have hk4 : k + 4 ≤ s.length := termAt_le_length (findTerm_eq_some_iff.mp hk).1
  intro chunks
  induction chunks with
  | nil =>
    intro p st hjoin hlt _
    exfalso
    rw [List.flatten_nil, List.append_nil] at hjoin
    subst hjoin
    exact absurd hlt (lt_irrefl _)
  | cons d ds ih =>
    intro p st hjoin hlt hinv
    have hjoin' : (p ++ d) ++ ds.flatten = s := by
      rw [List.append_assoc]
      simpa [List.flatten_cons] using hjoin
    rcases hinv with ⟨hp, hrxe, hhr, hcl, hcbr⟩ | ⟨hpne, hplt, hrx, hhr, hcl, hcbr⟩ |
      ⟨hge, hhr, hcl, hcbr⟩
    · -- phase 0: nothing consumed yet, buffer empty
      subst hp
      have hjd : d ++ ds.flatten = s := by simpa using hjoin'
      have hks : findTerm (d ++ ds.flatten) = some k := by rw [hjd]; exact hk
      rcases hfd : findTerm d with _ | k'
      · -- the chunk holds no terminator: it becomes the immutable buffer
        have hdlt : d.length < k + 4 := by
          by_contra hcon
          push_neg at hcon
          have hlong := findTerm_long hks hcon
          rw [hfd] at hlong
          cases hlong
        have hfe : framerFeed { st with bytes_received := st.bytes_received + d.length } d
            = .ok { st with bytes_received := st.bytes_received + d.length, rx_buffer := .bs d } :=
          framerFeed_nofind _ d (.bs d) hhr (bufAppend_empty _ d hrxe) hfd
        have hcdf : checkDone { st with bytes_received := st.bytes_received + d.length, rx_buffer := PyBuf.bs d } = false := by
          unfold checkDone
          rw [show ({ st with bytes_received := st.bytes_received + d.length, rx_buffer := PyBuf.bs d } : DLState).content_length = st.content_length from rfl, hcl]
        have hstep : dlStep true st d
            = ({ st with bytes_received := st.bytes_received + d.length, rx_buffer := PyBuf.bs d }, false, false) := by
          rw [dlStep_feed_ok true st d _ hfe, hcdf]
          rfl
        have hrun : feedChunks true st (List.length ([] : List Nat)) (d :: ds)
            = feedChunks true { st with bytes_received := st.bytes_received + d.length, rx_buffer := PyBuf.bs d } (List.length ([] : List Nat) + d.length) ds := by
          rw [feedChunks_cons true st _ d ds _ _ _ hstep]
          rfl
        rw [hrun, show List.length ([] : List Nat) + d.length = List.length (([] : List Nat) ++ d) by simp]
        apply ih (([] : List Nat) ++ d) _ hjoin'
        · show d.length < s.length
          omega
        · by_cases hd0 : d = []
          · subst hd0
            exact Or.inl ⟨rfl, rfl, hhr, hcl, hcbr⟩
          · exact Or.inr (Or.inl ⟨hd0, hdlt, rfl, hhr, hcl, hcbr⟩)
      · -- the chunk holds the whole header
        have hk4d : k + 4 ≤ d.length := by
          by_contra hcon
          push_neg at hcon
          have hshort := findTerm_short hks hcon
          rw [hfd] at hshort
          cases hshort
        have hkk : k' = k := by
          have hlong := findTerm_long hks hk4d
          rw [hfd] at hlong
          exact Option.some.inj hlong
        rw [hkk] at hfd
        clear hkk
        have hslice : searchCL (d.take (k + 2)) = searchCL (s.take (k + 2)) := by
          rw [take_eq_of_app hjd (by omega)]
        obtain ⟨s1, hfe, hs1hr, hs1cl, hs1cbr, hs1b⟩ :=
          framerFeed_found_projs { st with bytes_received := st.bytes_received + d.length } d k hhr hrxe hfd
        have hdle : d.length ≤ s.length := length_le_of_app hjd
        have hcd : checkDone s1 = ((d.length - (k + 4)) == (searchCL (d.take (k + 2))).getD 0) := by
          rw [checkDone_some hs1cl, hs1cbr]
        by_cases hdone : d.length = s.length
        · -- the completion predicate fires on this chunk
          have hcdt : checkDone s1 = true := by
            rw [hcd, hslice]
            simp only [beq_iff_eq]
            omega
          have hstep : dlStep true st d
              = ({ s1 with rx_buffer := PyBuf.ba [], header_received := false }, true, false) := by
            rw [dlStep_feed_ok true st d s1 hfe, hcdt]
            rfl
          have hrun : feedChunks true st (List.length ([] : List Nat)) (d :: ds)
              = .ok (some (List.length ([] : List Nat) + d.length, { s1 with rx_buffer := PyBuf.ba [], header_received := false })) := by
            rw [feedChunks_cons true st _ d ds _ _ _ hstep]
            rfl
          refine Or.inr ⟨{ s1 with rx_buffer := PyBuf.ba [], header_received := false },
            by rw [hrun, show List.length ([] : List Nat) + d.length = s.length by simp [hdone]], ?_⟩
          show s1.content_bytes_received = (searchCL (s.take (k + 2))).getD 0
          omega
        · -- more body to come: recurse in phase 2
          have hcdf : checkDone s1 = false := by
            rw [hcd, hslice]
            simp only [beq_eq_false_iff_ne, ne_eq]
            omega
          have hstep : dlStep true st d = (s1, false, false) := by
            rw [dlStep_feed_ok true st d s1 hfe, hcdf]
            rfl
          have hrun : feedChunks true st (List.length ([] : List Nat)) (d :: ds)
              = feedChunks true s1 (List.length ([] : List Nat) + d.length) ds := by
            rw [feedChunks_cons true st _ d ds _ _ _ hstep]
            rfl
          rw [hrun, show List.length ([] : List Nat) + d.length = List.length (([] : List Nat) ++ d) by simp]
          apply ih (([] : List Nat) ++ d) s1 hjoin'
          · show d.length < s.length
            omega
          · refine Or.inr (Or.inr ⟨hk4d, hs1hr, ?_, ?_⟩)
            · rw [hs1cl, hslice]
            · rw [hs1cbr]
              rfl
    · -- phase 1: a terminator-free chunk sits in the buffer as bytes; raise
      have hba : bufAppend st.rx_buffer d = .error () := by
        rw [hrx]
        exact bufAppend_bs_ne p d hpne
      have hfe : framerFeed { st with bytes_received := st.bytes_received + d.length } d = .error () :=
        framerFeed_raise _ d hhr hba
      have hstep : dlStep true st d = ({ st with bytes_received := st.bytes_received + d.length }, false, true) :=
        dlStep_feed_error true st d hfe
      refine Or.inl ?_
      rw [feedChunks_cons true st _ d ds _ _ _ hstep]
      rfl
    · -- phase 2: headers parsed, counting body bytes
      have hfe := framerFeed_hr { st with bytes_received := st.bytes_received + d.length } d hhr
      have happle : (p ++ d).length ≤ s.length := length_le_of_app hjoin'
      rw [List.length_append] at happle
      have hcd : checkDone { st with bytes_received := st.bytes_received + d.length, content_bytes_received := st.content_bytes_received + d.length } = ((st.content_bytes_received + d.length) == (searchCL (s.take (k + 2))).getD 0) :=
        checkDone_some hcl
      by_cases hdone : p.length + d.length = s.length
      · have hcdt : checkDone { st with bytes_received := st.bytes_received + d.length, content_bytes_received := st.content_bytes_received + d.length } = true := by
          rw [hcd]
          simp only [beq_iff_eq]
          omega
        have hstep : dlStep true st d
            = ({ st with bytes_received := st.bytes_received + d.length, content_bytes_received := st.content_bytes_received + d.length, rx_buffer := PyBuf.ba [], header_received := false }, true, false) := by
          rw [dlStep_feed_ok true st d _ hfe, hcdt]
          rfl
        have hrun : feedChunks true st p.length (d :: ds)
            = .ok (some (p.length + d.length, { st with bytes_received := st.bytes_received + d.length, content_bytes_received := st.content_bytes_received + d.length, rx_buffer := PyBuf.ba [], header_received := false })) := by
          rw [feedChunks_cons true st _ d ds _ _ _ hstep]
          rfl
        refine Or.inr ⟨_, by rw [hrun, hdone], ?_⟩
        show st.content_bytes_received + d.length = (searchCL (s.take (k + 2))).getD 0
        omega
      · have hcdf : checkDone { st with bytes_received := st.bytes_received + d.length, content_bytes_received := st.content_bytes_received + d.length } = false := by
          rw [hcd]
          simp only [beq_eq_false_iff_ne, ne_eq]
          omega
        have hstep : dlStep true st d
            = ({ st with bytes_received := st.bytes_received + d.length, content_bytes_received := st.content_bytes_received + d.length }, false, false) := by
          rw [dlStep_feed_ok true st d _ hfe, hcdf]
          rfl
        have hrun : feedChunks true st p.length (d :: ds)
            = feedChunks true { st with bytes_received := st.bytes_received + d.length, content_bytes_received := st.content_bytes_received + d.length } (p.length + d.length) ds := by
          rw [feedChunks_cons true st _ d ds _ _ _ hstep]
          rfl
        rw [hrun, show p.length + d.length = (p ++ d).length from (List.length_append p d).symm]
        apply ih (p ++ d) _ hjoin'
        · rw [List.length_append]
          omega
        · refine Or.inr (Or.inr ⟨?_, hhr, hcl, ?_⟩)
          · rw [List.length_append]
            omega
          · show st.content_bytes_received + d.length = (p ++ d).length - (k + 4)
            rw [List.length_append]
            omega

/-- C8: for every response whose header block declares `Content-Length: 0` and
for every response with no `Content-Length` field at all (both give declared
length 0), and for every chunked delivery of that response which the framer
processes without raising, completion is reported exactly once the CRLF-CRLF
header terminator has been received — that is, when the whole stream of
`k + 4` bytes has been consumed — with zero body bytes consumed. -/
theorem zero_length_completion (s : List Nat) (k : Nat)
    (hk : findTerm s = some k) (hlen : s.length = k + 4)
    (hcl : (searchCL (s.take (k + 2))).getD 0 = 0)
    (chunks : List (List Nat)) (hj : chunks.flatten = s)
    (hok : feedChunks true initDL 0 chunks ≠ .error ()) :
    ∃ st, feedChunks true initDL 0 chunks = .ok (some (s.length, st))
      ∧ st.content_bytes_received = 0 := by
  have hlen' : s.length = k + 4 + (searchCL (s.take (k + 2))).getD 0 := by omega
  have h0 : (0 : Nat) < s.length := by
    have := termAt_le_length (findTerm_eq_some_iff.mp hk).1
    omega
  have hmain := feedChunks_wf s k hk hlen' chunks [] initDL (by simpa using hj) h0
      (Or.inl ⟨rfl, rfl, rfl, rfl, rfl⟩)
  rcases hmain with herr | ⟨st', hok', hcbr⟩
  · exact absurd herr hok
  · exact ⟨st', hok', by omega⟩

/-- C8 (witness): the header-only response `"A\r\n\r\n"` (no
`Content-Length` field, declared length 0) delivered in one chunk completes at
its full length with zero body bytes. -/
theorem zero_length_completion_witness :
    ∃ st, feedChunks true initDL 0 [hdrA] = .ok (some (hdrA.length, st))
      ∧ st.content_bytes_received = 0 :=
  zero_length_completion hdrA 1 (by decide) (by decide) (by decide) [hdrA] (by decide) (by decide)

/-! ## The sliding window: purge characterisation -/

theorem purgeLoop_eq (c : ℚ) :
    ∀ (d : List (ℚ × ℤ)) (s : ℤ),
      purgeLoop c d s = (d.dropWhile (fun x => decide (x.1 < c)),
        s - ((d.takeWhile (fun x => decide (x.1 < c))).map Prod.snd).sum) := by
  intro d
  induction d with
  | nil => intro s; simp [purgeLoop]
  | cons x rest ih =>
    intro s
    have he : purgeLoop c (x :: rest) s
        = if x.1 < c then purgeLoop c rest (s - x.2) else (x :: rest, s) := rfl
    rw [he]
    by_cases hx : x.1 < c
    · rw [if_pos hx, ih]
      rw [List.dropWhile_cons_of_pos (by simpa using hx),
        List.takeWhile_cons_of_pos (by simpa using hx)]
      simp only [List.map_cons, List.sum_cons, Prod.mk.injEq, true_and]
      ring
    · rw [if_neg hx, List.dropWhile_cons_of_neg (by simpa using hx),
        List.takeWhile_cons_of_neg (by simpa using hx)]
      simp

theorem dropWhile_filter_sorted (c : ℚ) :
    ∀ d : List (ℚ × ℤ), List.Pairwise (fun a b => a.1 ≤ b.1) d →
      d.dropWhile (fun x => decide (x.1 < c)) = d.filter (fun x => decide (c ≤ x.1)) := by
  intro d
  induction d with
  | nil => intro _; rfl
  | cons x rest ih =>
    intro hs
    rw [List.pairwise_cons] at hs
    by_cases hx : x.1 < c
    · rw [List.dropWhile_cons_of_pos (by simpa using hx),
        List.filter_cons_of_neg (by simpa using not_le.mpr hx)]
      exact ih hs.2
    · rw [List.dropWhile_cons_of_neg (by simpa using hx),
        List.filter_cons_of_pos (by simpa using not_lt.mp hx)]
      congr 1
      refine (List.filter_eq_self.mpr fun y hy => ?_).symm
      simp only [decide_eq_true_eq]
      exact le_trans (not_lt.mp hx) (hs.1 y hy)

theorem filter_le_le (c c' : ℚ) (h : c ≤ c') (d : List (ℚ × ℤ)) :
    (d.filter (fun x => decide (c ≤ x.1))).filter (fun x => decide (c' ≤ x.1))
      = d.filter (fun x => decide (c' ≤ x.1)) := by
  induction d with
  | nil => rfl
  | cons x rest ih =>
    by_cases hx : c ≤ x.1
    · by_cases hx' : c' ≤ x.1
      · simp [List.filter_cons, hx, hx', ih]
      · simp [List.filter_cons, hx, hx', ih]
    · have hx' : ¬ c' ≤ x.1 := fun hc => hx (le_trans h hc)
      simp [List.filter_cons, hx, hx', ih]

theorem purge_sorted (w : SlidingWindow) (now : ℚ)
    (hsort : List.Pairwise (fun a b => a.1 ≤ b.1) w._data)
    (hsum : w.sum = (w._data.map Prod.snd).sum) :
    (w.purge now)._data = w._data.filter (fun x => decide (now - w.window ≤ x.1))
    ∧ (w.purge now).sum
        = ((w._data.filter (fun x => decide (now - w.window ≤ x.1))).map Prod.snd).sum
    ∧ (w.purge now).window = w.window := by
  refine ⟨?_, ?_, rfl⟩
  · show (purgeLoop (now - w.window) w._data w.sum).1 = _
    rw [purgeLoop_eq]
    exact dropWhile_filter_sorted _ _ hsort
  · show (purgeLoop (now - w.window) w._data w.sum).2 = _
    rw [purgeLoop_eq]
    simp only
    rw [hsum, ← dropWhile_filter_sorted _ _ hsort]
    have hd : w._data.takeWhile (fun x : ℚ × ℤ => decide (x.1 < now - w.window))
        ++ w._data.dropWhile (fun x : ℚ × ℤ => decide (x.1 < now - w.window)) = w._data :=
      List.takeWhile_append_dropWhile (fun x : ℚ × ℤ => decide (x.1 < now - w.window)) w._data
    have hsplit : ((w._data.map Prod.snd).sum : ℤ)
        = ((w._data.takeWhile (fun x => decide (x.1 < now - w.window))).map Prod.snd).sum
          + ((w._data.dropWhile (fun x => decide (x.1 < now - w.window))).map Prod.snd).sum := by
      conv_lhs => rw [← hd]
      rw [List.map_append, List.sum_append]
    rw [hsplit]
    ring

theorem runAdds_inv (W : ℚ) (hW : 0 < W) :
    ∀ l : List (ℚ × ℤ), List.Pairwise (fun a b => a.1 ≤ b.1) l →
      (runAdds W l).window = W
      ∧ List.Pairwise (fun a b => a.1 ≤ b.1) (runAdds W l)._data
      ∧ (runAdds W l).sum = ((runAdds W l)._data.map Prod.snd).sum
      ∧ ((runAdds W l)._data = [] ∧ l = []
         ∨ ∃ pre x, l = pre ++ [x]
             ∧ (runAdds W l)._data = l.filter (fun a => decide (x.1 - W ≤ a.1))) := by
  intro l
  induction l using List.reverseRecOn with
  | nil => intro _; exact ⟨rfl, List.Pairwise.nil, rfl, Or.inl ⟨rfl, rfl⟩⟩
  | append_singleton pre x ih =>
    intro hs
    have hpre : List.Pairwise (fun a b => a.1 ≤ b.1) pre := (List.pairwise_append.mp hs).1
    have hlex : ∀ a ∈ pre, a.1 ≤ x.1 := fun a ha =>
      (List.pairwise_append.mp hs).2.2 a ha x (by simp)
    obtain ⟨ihw, ihsort, ihsum, ihdata⟩ := ih hpre
    have hfold : runAdds W (pre ++ [x]) = (runAdds W pre).add x.1 x.2 := by
      simp [runAdds, List.foldl_append]
    have hmem : ∀ a ∈ (runAdds W pre)._data, a ∈ pre := by
      rcases ihdata with ⟨hd0, _⟩ | ⟨pre', x', _, hd⟩
      · rw [hd0]; intro a ha; cases ha
      · rw [hd]; intro a ha; exact (List.filter_sublist _).subset ha
    have hsort1 : List.Pairwise (fun a b : ℚ × ℤ => a.1 ≤ b.1)
        ((runAdds W pre)._data ++ [x]) := by
      rw [List.pairwise_append]
      exact ⟨ihsort, List.pairwise_singleton _ _,
        fun a ha b hb => by
          have hb' : b = x := by simpa using hb
          rw [hb']
          exact hlex a (hmem a ha)⟩
    have hsum1 : (runAdds W pre).sum + x.2
        = (((runAdds W pre)._data ++ [x]).map Prod.snd).sum := by
      rw [List.map_append, List.sum_append, ihsum]
      simp
    obtain ⟨hp1, hp2, hp3⟩ := purge_sorted { runAdds W pre with sum := (runAdds W pre).sum + x.2, _data := (runAdds W pre)._data ++ [x] } x.1 hsort1 hsum1
    have ha1 : ((runAdds W pre).add x.1 x.2)._data
        = ((runAdds W pre)._data ++ [x]).filter (fun a => decide (x.1 - (runAdds W pre).window ≤ a.1)) := hp1
    have ha2 : ((runAdds W pre).add x.1 x.2).sum
        = ((((runAdds W pre)._data ++ [x]).filter (fun a => decide (x.1 - (runAdds W pre).window ≤ a.1))).map Prod.snd).sum := hp2
    have ha3 : ((runAdds W pre).add x.1 x.2).window = (runAdds W pre).window := hp3
    simp only [ihw] at ha1 ha2 ha3
    have hxkeep : (([x] : List (ℚ × ℤ)).filter (fun a => decide (x.1 - W ≤ a.1))) = [x] := by
      simp only [List.filter_cons, List.filter_nil]
      rw [if_pos (by simp only [decide_eq_true_eq]; linarith)]
    have hfdata : ((runAdds W pre)._data ++ [x]).filter (fun a => decide (x.1 - W ≤ a.1))
        = (pre ++ [x]).filter (fun a => decide (x.1 - W ≤ a.1)) := by
      rw [List.filter_append, List.filter_append, hxkeep]
      congr 1
      rcases ihdata with ⟨hd0, hl0⟩ | ⟨pre', x', hlx', hd⟩
      · rw [hd0, hl0]
      · rw [hd]
        have hx'mem : x' ∈ pre := by rw [hlx']; simp
        have hcc : x'.1 - W ≤ x.1 - W := by
          have := hlex x' hx'mem
          linarith
        exact filter_le_le _ _ hcc pre
    refine ⟨?_, ?_, ?_, Or.inr ⟨pre, x, rfl, ?_⟩⟩
    · rw [hfold, ha3]
    · rw [hfold, ha1, hfdata]
      exact List.Pairwise.sublist (List.filter_sublist _) hs
    · rw [hfold, ha2, ha1]
    · rw [hfold, ha1, hfdata]

/-- C1: for every non-decreasing sequence of `add` calls performed at the
samples' timestamps, after the purge done at any instant `now` at or after
the last sample the running sum equals the exact sum of the byte counts of
the samples whose timestamp is at least `now - window` (strictly older
samples having been removed from the oldest end); `value()` returns that
running sum divided by the window length; and `value()` on an empty window —
including a window in which every sample has expired — returns 0. -/
theorem sliding_window_rate (W : ℚ) (hW : 0 < W) (l : List (ℚ × ℤ))
    (hsort : List.Pairwise (fun a b => a.1 ≤ b.1) l)
    (now : ℚ) (hnow : ∀ a ∈ l, a.1 ≤ now) :
    ((runAdds W l).purge now).sum
      = ((l.filter (fun a => decide (now - W ≤ a.1))).map Prod.snd).sum
    ∧ (runAdds W l).value now
      = (((l.filter (fun a => decide (now - W ≤ a.1))).map Prod.snd).sum : ℚ) / W
    ∧ (l.filter (fun a => decide (now - W ≤ a.1)) = [] → (runAdds W l).value now = 0) := by
  obtain ⟨hw, hsorted, hsum, hdata⟩ := runAdds_inv W hW l hsort
  obtain ⟨hp1, hp2, hp3⟩ := purge_sorted (runAdds W l) now hsorted hsum
  simp only [hw] at hp1 hp2 hp3
  have hfilter : (runAdds W l)._data.filter (fun a => decide (now - W ≤ a.1))
      = l.filter (fun a => decide (now - W ≤ a.1)) := by
    rcases hdata with ⟨hd0, hl0⟩ | ⟨pre, x, hlx, hd⟩
    · rw [hd0, hl0]
    · rw [hd]
      have hxl : x ∈ l := by rw [hlx]; simp
      have hcc : x.1 - W ≤ now - W := by
        have := hnow x hxl
        linarith
      exact filter_le_le _ _ hcc l
  have hsum' : ((runAdds W l).purge now).sum
      = ((l.filter (fun a => decide (now - W ≤ a.1))).map Prod.snd).sum := by
    rw [hp2, hfilter]
  have hval : (runAdds W l).value now
      = (((l.filter (fun a => decide (now - W ≤ a.1))).map Prod.snd).sum : ℚ) / W := by
    show (((runAdds W l).purge now).sum : ℚ) / (runAdds W l).window = _
    rw [hsum', hw]
  refine ⟨hsum', hval, fun hfe => ?_⟩
  rw [hval, hfe]
  simp

/-- C1 (witness): three integer-timestamped samples with window 1, read at
time 2: only the samples at times 1 and 2 survive the purge. -/
theorem sliding_window_rate_witness :
    ((runAdds 1 [((0 : ℚ), (5 : ℤ)), (1, 7), (2, 3)]).purge 2).sum
        = (([((0 : ℚ), (5 : ℤ)), (1, 7), (2, 3)].filter (fun a => decide ((2 : ℚ) - 1 ≤ a.1))).map Prod.snd).sum
    ∧ (runAdds 1 [((0 : ℚ), (5 : ℤ)), (1, 7), (2, 3)]).value 2
        = ((([((0 : ℚ), (5 : ℤ)), (1, 7), (2, 3)].filter (fun a => decide ((2 : ℚ) - 1 ≤ a.1))).map Prod.snd).sum : ℚ) / 1
    ∧ ([((0 : ℚ), (5 : ℤ)), (1, 7), (2, 3)].filter (fun a => decide ((2 : ℚ) - 1 ≤ a.1)) = []
        → (runAdds 1 [((0 : ℚ), (5 : ℤ)), (1, 7), (2, 3)]).value 2 = 0) :=
  sliding_window_rate 1 (by norm_num) [((0 : ℚ), (5 : ℤ)), (1, 7), (2, 3)]
    (by simp [List.pairwise_cons]) 2
    (by intro a ha; simp only [List.mem_cons, List.not_mem_nil, or_false] at ha; rcases ha with rfl | rfl | rfl <;> norm_num)

/-! ## The progress monitor -/

theorem monitor_add_end_time (m : Monitor) (now : ℚ) (n : ℤ) :
    (m.add now n).1._end_time = m._end_time := by
  unfold Monitor.add
  split
  · split
    · rfl
    · rfl
  · split
    · rfl
    · rfl

theorem monitor_add_running (m : Monitor) (now : ℚ) (n : ℤ) :
    (m.add now n).1.running = (m.running && !(decide (m._end_time ≤ now))) := by
  unfold Monitor.add
  by_cases h1 : m._end_time ≤ now
  · rw [if_pos h1]
    by_cases h2 : m.running = true
    · rw [if_pos h2]
      simp [h1, h2]
    · rw [if_neg h2]
      simp only [Bool.not_eq_true] at h2
      simp [h1, h2]
  · rw [if_neg h1]
    by_cases h3 : m._next_report ≤ now
    · rw [if_pos h3]
      simp [h1]
    · rw [if_neg h3]
      simp [h1]

theorem monitor_add_newline (m : Monitor) (now : ℚ) (n : ℤ) :
    (m.add now n).2.1 = (m.running && decide (m._end_time ≤ now)) := by
  unfold Monitor.add
  by_cases h1 : m._end_time ≤ now
  · rw [if_pos h1]
    by_cases h2 : m.running = true
    · rw [if_pos h2]
      simp [h1, h2]
    · rw [if_neg h2]
      simp only [Bool.not_eq_true] at h2
      simp [h1, h2]
  · rw [if_neg h1]
    by_cases h3 : m._next_report ≤ now
    · rw [if_pos h3]
      simp [h1]
    · rw [if_neg h3]
      simp [h1]

theorem runMonitor_running (m : Monitor) :
    ∀ calls : List (ℚ × ℤ),
      (runMonitor m calls).1.running
        = (m.running && !(calls.any (fun c => decide (m._end_time ≤ c.1)))) := by
  intro calls
  induction calls generalizing m with
  | nil => simp [runMonitor]
  | cons c cs ih =>
    have he : runMonitor m (c :: cs)
        = ((runMonitor (m.add c.1 c.2).1 cs).1,
           (m.add c.1 c.2).2.1 :: (runMonitor (m.add c.1 c.2).1 cs).2) := rfl
    rw [he]
    show (runMonitor (m.add c.1 c.2).1 cs).1.running = _
    rw [ih ((m.add c.1 c.2).1)]
    simp only [monitor_add_end_time, monitor_add_running, List.any_cons]
    cases m.running <;> cases hd : decide (m._end_time ≤ c.1) <;> simp [hd]

theorem runMonitor_newlines (m : Monitor) :
    ∀ calls : List (ℚ × ℤ),
      (runMonitor m calls).2
        = if m.running then markFirst (calls.map (fun c => decide (m._end_time ≤ c.1)))
          else List.replicate calls.length false := by
  intro calls
  induction calls generalizing m with
  | nil => cases hr : m.running <;> simp [runMonitor, hr, markFirst]
  | cons c cs ih =>
    have he : runMonitor m (c :: cs)
        = ((runMonitor (m.add c.1 c.2).1 cs).1,
           (m.add c.1 c.2).2.1 :: (runMonitor (m.add c.1 c.2).1 cs).2) := rfl
    rw [he]
    show ((m.add c.1 c.2).2.1 :: (runMonitor (m.add c.1 c.2).1 cs).2) = _
    rw [ih ((m.add c.1 c.2).1)]
    simp only [monitor_add_end_time, monitor_add_running, monitor_add_newline]
    cases hr : m.running <;> cases hd : decide (m._end_time ≤ c.1) <;>
      simp [hd, markFirst, List.replicate_succ]

/-- C3: with a fresh monitor of duration `D` started at `t0` and a
non-decreasing sequence of `add` calls, the running flag is true just after
every call made strictly before the end time and false just after every call
made at or after it, and the final-newline trace of the whole run marks
exactly the first call observing `now ≥ end-time` — the flag flips exactly
once, never flips back, and later qualifying calls emit nothing further. -/
theorem monitor_flag_single_transition (ctx : String) (t0 D : ℚ) (calls : List (ℚ × ℤ))
    (hmono : List.Pairwise (fun a b => a.1 ≤ b.1) calls) :
    (∀ p c q, calls = p ++ c :: q →
        ((c.1 < t0 + D → (runMonitor (Monitor.init ctx t0 D) (p ++ [c])).1.running = true)
         ∧ (t0 + D ≤ c.1 → (runMonitor (Monitor.init ctx t0 D) (p ++ [c])).1.running = false)))
    ∧ (runMonitor (Monitor.init ctx t0 D) calls).2
        = markFirst (calls.map (fun c => decide (t0 + D ≤ c.1))) := by
  have hinitr : (Monitor.init ctx t0 D).running = true := rfl
  have hinite : (Monitor.init ctx t0 D)._end_time = t0 + D := rfl
  constructor
  · intro p c q hpq
    subst hpq
    have hple : ∀ a ∈ p, a.1 ≤ c.1 := fun a ha =>
      (List.pairwise_append.mp hmono).2.2 a ha c (by simp)
    have hrun := runMonitor_running (Monitor.init ctx t0 D) (p ++ [c])
    simp only [hinitr, hinite, Bool.true_and] at hrun
    constructor
    · intro hlt
      rw [hrun]
      have hany : (p ++ [c]).any (fun a => decide (t0 + D ≤ a.1)) = false := by
        rw [List.any_eq_false]
        intro a ha
        simp only [decide_eq_true_eq]
        rcases List.mem_append.mp ha with hp | hc
        · have := hple a hp
          intro hcon
          exact absurd (lt_of_le_of_lt this hlt) (not_lt.mpr hcon)
        · have ha' : a = c := by simpa using hc
          rw [ha']
          exact not_le.mpr hlt
      rw [hany]
      rfl
    · intro hge
      rw [hrun]
      have hany : (p ++ [c]).any (fun a => decide (t0 + D ≤ a.1)) = true := by
        rw [List.any_eq_true]
        exact ⟨c, by simp, by simpa using hge⟩
      rw [hany]
      rfl
  · have hnl := runMonitor_newlines (Monitor.init ctx t0 D) calls
    simp only [hinitr, hinite, if_true] at hnl
    exact hnl

/-- C3 (witness): duration 1 started at 0, calls at times 0, 1 and 2; the
newline trace marks exactly the call at time 1. -/
theorem monitor_flag_single_transition_witness :
    (∀ p c q, ([((0 : ℚ), (1 : ℤ)), (1, 2), (2, 3)] : List (ℚ × ℤ)) = p ++ c :: q →
        ((c.1 < 0 + 1 → (runMonitor (Monitor.init "Download" 0 1) (p ++ [c])).1.running = true)
         ∧ (0 + 1 ≤ c.1 → (runMonitor (Monitor.init "Download" 0 1) (p ++ [c])).1.running = false)))
    ∧ (runMonitor (Monitor.init "Download" 0 1) [((0 : ℚ), (1 : ℤ)), (1, 2), (2, 3)]).2
        = markFirst ([((0 : ℚ), (1 : ℤ)), (1, 2), (2, 3)].map (fun c => decide ((0 : ℚ) + 1 ≤ c.1))) :=
  monitor_flag_single_transition "Download" 0 1 [((0 : ℚ), (1 : ℤ)), (1, 2), (2, 3)]
    (by simp [List.pairwise_cons])

/-! ## Byte conservation across the connection pool -/

theorem framerFeed_bytes {s0 s1 : DLState} {d : List Nat} (h : framerFeed s0 d = .ok s1) :
    s1.bytes_received = s0.bytes_received := by
  by_cases hhr : s0.header_received = true
  · rw [framerFeed_hr s0 d hhr] at h
    injection h with h
    rw [← h]
  · have hhr' : s0.header_received = false := by simpa using hhr
    rcases hb : bufAppend s0.rx_buffer d with e | buf
    · cases e
      rw [framerFeed_raise s0 d hhr' hb] at h
      exact Except.noConfusion h
    · rcases hf : findTerm buf.toList with _ | k
      · rw [framerFeed_nofind s0 d buf hhr' hb hf] at h
        injection h with h
        rw [← h]
      · rw [framerFeed_found s0 d buf k hhr' hb hf] at h
        injection h with h
        rw [← h]

theorem dlStep_bytes (running : Bool) (s : DLState) (d : List Nat) :
    (dlStep running s d).1.bytes_received = s.bytes_received + d.length := by
  rcases hfe : framerFeed { s with bytes_received := s.bytes_received + d.length } d with e | s1
  · cases e
    rw [dlStep_feed_error running s d hfe]
  · rw [dlStep_feed_ok running s d s1 hfe]
    have hb : s1.bytes_received = s.bytes_received + d.length := framerFeed_bytes hfe
    by_cases hcd : checkDone s1 = true
    · rw [if_pos hcd]
      cases running
      · exact hb
      · exact hb
    · rw [if_neg hcd]
      exact hb

theorem updateAt_length {α : Type} : ∀ (l : List α) (i : Nat) (f : α → α),
    (updateAt l i f).length = l.length := by
  intro l
  induction l with
  | nil => intro i f; rfl
  | cons x rest ih =>
    intro i f
    cases i with
    | zero => rfl
    | succ i' => show (x :: updateAt rest i' f).length = _; simp [ih]

theorem updateAt_sum_map (g : DLState → Nat) (c : Nat) (f : DLState → DLState)
    (hf : ∀ s, g (f s) = g s + c) :
    ∀ (l : List DLState) (i : Nat), i < l.length →
      ((updateAt l i f).map g).sum = (l.map g).sum + c := by
  intro l
  induction l with
  | nil => intro i hi; exact absurd hi (Nat.not_lt_zero i)
  | cons s rest ih =>
    intro i hi
    cases i with
    | zero =>
      show ((f s :: rest).map g).sum = _
      simp only [List.map_cons, List.sum_cons, hf s]
      omega
    | succ i' =>
      show ((s :: updateAt rest i' f).map g).sum = _
      simp only [List.map_cons, List.sum_cons]
      rw [ih i' (by simpa using hi)]
      omega

theorem runPool_total : ∀ (sched : List (Nat × Bool × List Nat)) (pool : List DLState),
    (∀ e ∈ sched, e.1 < pool.length) →
    ((runPool pool sched).map resolveValue).sum
      = (pool.map resolveValue).sum + (sched.map (fun e => e.2.2.length)).sum := by
  intro sched
  induction sched with
  | nil => intro pool _; simp [runPool]
  | cons e es ih =>
    intro pool hlt
    have he : runPool pool (e :: es) = runPool (deliver pool e) es := rfl
    rw [he]
    have hlen : (deliver pool e).length = pool.length := updateAt_length pool e.1 _
    rw [ih (deliver pool e) (fun e' he' => by rw [hlen]; exact hlt e' (by simp [he']))]
    have hdel : ((deliver pool e).map resolveValue).sum
        = (pool.map resolveValue).sum + e.2.2.length := by
      unfold deliver
      exact updateAt_sum_map resolveValue e.2.2.length _
        (fun s => dlStep_bytes e.2.1 s e.2.2) pool e.1 (hlt e (by simp))
    rw [hdel]
    simp only [List.map_cons, List.sum_cons]
    omega

theorem sum_map_add (l : List Nat) (f g : Nat → Nat) :
    (l.map (fun a => f a + g a)).sum = (l.map f).sum + (l.map g).sum := by
  induction l with
  | nil => rfl
  | cons x rest ih =>
    simp only [List.map_cons, List.sum_cons, ih]
    omega

theorem sum_range_delta (j c : Nat) : ∀ n, j < n →
    ((List.range n).map (fun i => if j == i then c else 0)).sum = c := by
  intro n
  induction n with
  | zero => intro h; exact absurd h (Nat.not_lt_zero j)
  | succ n' ih =>
    intro hj
    rw [List.range_succ, List.map_append, List.sum_append]
    by_cases h : j < n'
    · rw [ih h]
      have hne : j ≠ n' := by omega
      simp [hne]
    · have hj' : j = n' := by omega
      subst hj'
      have hz : ((List.range j).map (fun i => if j == i then c else 0)).sum = 0 := by
        apply List.sum_eq_zero
        intro x hx
        obtain ⟨i, hi, hix⟩ := List.mem_map.mp hx
        have hilt : i < j := List.mem_range.mp hi
        have hne : (j == i) = false := by
          simp only [beq_eq_false_iff_ne, ne_eq]
          omega
        rw [← hix, hne]
        rfl
      rw [hz]
      simp

theorem connBytes_cons (i : Nat) (e : Nat × Bool × List Nat) (es : List (Nat × Bool × List Nat)) :
    connBytes i (e :: es) = (if e.1 == i then e.2.2.length else 0) + connBytes i es := by
  unfold connBytes
  rw [List.filter_cons]
  by_cases h : (e.1 == i) = true
  · rw [if_pos h, if_pos h]
    simp [List.map_cons]
  · rw [if_neg h, if_neg h]
    simp

theorem sum_connBytes : ∀ (es : List (Nat × Bool × List Nat)) (n : Nat),
    (∀ e ∈ es, e.1 < n) →
    ((List.range n).map (fun i => connBytes i es)).sum = (es.map (fun e => e.2.2.length)).sum := by
  intro es
  induction es with
  | nil =>
    intro n _
    simp [connBytes]
  | cons e es ih =>
    intro n hlt
    simp only [connBytes_cons]
    rw [sum_map_add (List.range n) (fun i => if e.1 == i then e.2.2.length else 0)
      (fun i => connBytes i es)]
    rw [ih n (fun e' he' => hlt e' (by simp [he']))]
    rw [sum_range_delta e.1 e.2.2.length n (hlt e (by simp))]
    simp

theorem orchestratorTotal_eq (sched : List (Nat × Bool × List Nat))
    (h : ∀ e ∈ sched, e.1 < 32) :
    orchestratorTotal sched = (sched.map (fun e => e.2.2.length)).sum := by
  unfold orchestratorTotal
  rw [runPool_total sched (poolInit 32) (by simpa [poolInit] using h)]
  simp [poolInit, resolveValue, initDL]

/-- C7: the value the orchestrator returns — the sum over the pool of 32
connections of the `bytes_received` each one resolves with — equals the exact
sum of the per-connection byte totals, and it is invariant under arbitrary
reorderings (interleavings) of the event schedule. -/
theorem orchestrator_total_sum (sched : List (Nat × Bool × List Nat))
    (h : ∀ e ∈ sched, e.1 < 32) :
    orchestratorTotal sched = ((List.range 32).map (fun i => connBytes i sched)).sum
    ∧ ∀ sched', List.Perm sched' sched → orchestratorTotal sched' = orchestratorTotal sched := by
  constructor
  · rw [orchestratorTotal_eq sched h]
    exact (sum_connBytes sched 32 h).symm
  · intro sched' hperm
    have h' : ∀ e ∈ sched', e.1 < 32 := fun e he => h e (hperm.mem_iff.mp he)
    rw [orchestratorTotal_eq sched h, orchestratorTotal_eq sched' h']
    exact List.Perm.sum_eq (hperm.map _)

/-- C7 (witness): two data events for connections 0 and 31, delivered in both
orders. -/
theorem orchestrator_total_sum_witness :
    orchestratorTotal [(0, true, [1, 2]), (31, false, [3])]
        = ((List.range 32).map (fun i => connBytes i [(0, true, [1, 2]), (31, false, [3])])).sum
    ∧ orchestratorTotal [(31, false, [3]), (0, true, [1, 2])]
        = orchestratorTotal [(0, true, [1, 2]), (31, false, [3])] :=
  ⟨(orchestrator_total_sum [(0, true, [1, 2]), (31, false, [3])] (by decide)).1,
   (orchestrator_total_sum [(0, true, [1, 2]), (31, false, [3])] (by decide)).2
     [(31, false, [3]), (0, true, [1, 2])] (by decide)⟩

/-! ## Orchestrator failure propagation -/

theorem gatherCreate_mem_none : ∀ conns, none ∈ conns → gatherCreate conns = .error () := by
  intro conns
  induction conns with
  | nil => intro h; cases h
  | cons c cs ih =>
    intro h
    rcases List.mem_cons.mp h with rfl | h'
    · rfl
    · cases c with
      | none => rfl
      | some events =>
        have he : gatherCreate (some events :: cs)
            = (match gatherCreate cs with
               | .error e => .error e
               | .ok vs => .ok (connResolve events :: vs)) := rfl
        rw [he, ih h']

theorem gatherCreate_ok : ∀ conns, none ∉ conns →
    gatherCreate conns = .ok (conns.map (fun c => connResolve (c.getD []))) := by
  intro conns
  induction conns with
  | nil => intro _; rfl
  | cons c cs ih =>
    intro h
    cases c with
    | none => exact absurd (by simp) h
    | some events =>
      have hcs : none ∉ cs := fun hc => h (by simp [hc])
      have he : gatherCreate (some events :: cs)
          = (match gatherCreate cs with
             | .error e => .error e
             | .ok vs => .ok (connResolve events :: vs)) := rfl
      rw [he, ih hcs]
      rfl

/-- C4 (counterexample): in a 32-connection run where the first connection's
TCP connect raises and the other 31 succeed, `main` raises instead of
returning a total — contradicting the claim that the run always returns a
total sum even when some connections fail. -/
theorem orchestrator_abort_on_connect_failure :
    mainDL (none :: List.replicate 31 (some [(true, [72])])) = .error () := by
  decide

/-- C4 (amended): a single connection's establishment failure (a `none` pool
entry) propagates out of the orchestrator, which returns no total at all.
When all 32 connections establish, the run returns the sum of the
per-connection resolved totals, where each connection's trace may include a
delivery on which `data_received` raises: the transport contains that error
and the connection still resolves, via `connection_lost`, with the
`bytes_received` counted up to and including the raising chunk
(`connResolve` folds `dlStep`'s state across every event), so a framing
error aborts only its own connection and its partial count is included in
the returned sum. -/
theorem orchestrator_failure_propagation (conns : List (Option (List (Bool × List Nat))))
    (hlen : conns.length = 32) :
    (none ∈ conns → mainDL conns = .error ())
    ∧ (none ∉ conns → mainDL conns = .ok ((conns.map (fun c => connResolve (c.getD []))).sum)) := by
  constructor
  · intro h
    unfold mainDL
    rw [gatherCreate_mem_none conns h]
  · intro h
    unfold mainDL
    rw [gatherCreate_ok conns h]

/-- C4 (witness): with one failed connection the run raises; with all 32
connections established and each receiving one byte, the run returns 32; and
with one connection's trace raising mid-stream (the split delivery of
`respCL1`, whose second chunk raises `AttributeError`) while the other 31
each receive one byte, the run is still a total, 22 + 31 = 53, including the
raising connection's partial 22 bytes. -/
theorem orchestrator_failure_propagation_witness :
    mainDL (none :: List.replicate 31 (some [(true, [72, 73])])) = .error ()
    ∧ mainDL (List.replicate 32 (some [(true, [72])])) = .ok 32
    ∧ mainDL (some [(true, respCL1.take 5), (true, respCL1.drop 5)]
        :: List.replicate 31 (some [(true, [72])])) = .ok 53 := by
  refine ⟨?_, ?_, ?_⟩
  · exact (orchestrator_failure_propagation (none :: List.replicate 31 (some [(true, [72, 73])]))
      (by decide)).1 (by decide)
  · have h := (orchestrator_failure_propagation (List.replicate 32 (some [(true, [72])]))
      (by decide)).2 (by decide)
    rw [h]
    decide
  · have h := (orchestrator_failure_propagation
      (some [(true, respCL1.take 5), (true, respCL1.drop 5)]
        :: List.replicate 31 (some [(true, [72])])) (by decide)).2 (by decide)
    rw [h]
    decide

/-! ## Upload accounting -/

theorem uploadFeed_hr_some (s : ULState) (data : List Nat) (c : Nat)
    (hhr : s.header_received = true) (hc : s.content_bytes_received = some c) :
    uploadFeed s data = .ok { s with content_bytes_received := some (c + data.length) } := by
  unfold uploadFeed
  rw [hhr, hc]
  rfl

theorem uploadFeed_hr_none (s : ULState) (data : List Nat)
    (hhr : s.header_received = true) (hc : s.content_bytes_received = none) :
    uploadFeed s data = .error () := by
  unfold uploadFeed
  rw [hhr, hc]
  rfl

theorem uploadFeed_ok_buf (s : ULState) (data : List Nat) (buf : PyBuf)
    (hhr : s.header_received = false) (hba : bufAppend s.rx_buffer data = .ok buf) :
    uploadFeed s data =
      match findTerm buf.toList with
      | some k =>
        .ok { s with rx_buffer := buf, header_received := true,
                     header := buf.toList.take (k + 2),
                     content_length := some ((searchCL (buf.toList.take (k + 2))).getD 0),
                     content_bytes_received := some (buf.toList.length - (k + 4)) }
      | none => .ok { s with rx_buffer := buf } := by
  unfold uploadFeed
  rw [hhr, hba]
  rfl

theorem uploadFeed_raise (s : ULState) (data : List Nat)
    (hhr : s.header_received = false) (hba : bufAppend s.rx_buffer data = .error ()) :
    uploadFeed s data = .error () := by
  unfold uploadFeed
  rw [hhr, hba]
  rfl

theorem uploadFeed_bytes {s s1 : ULState} {data : List Nat} (h : uploadFeed s data = .ok s1) :
    s1.bytes_sent = s.bytes_sent := by
  by_cases hhr : s.header_received = true
  · rcases hc : s.content_bytes_received with _ | c
    · rw [uploadFeed_hr_none s data hhr hc] at h
      exact Except.noConfusion h
    · rw [uploadFeed_hr_some s data c hhr hc] at h
      injection h with h
      rw [← h]
  · have hhr' : s.header_received = false := by simpa using hhr
    rcases hb : bufAppend s.rx_buffer data with e | buf
    · cases e
      rw [uploadFeed_raise s data hhr' hb] at h
      exact Except.noConfusion h
    · rw [uploadFeed_ok_buf s data buf hhr' hb] at h
      rcases hf : findTerm buf.toList with _ | k
      · rw [hf] at h
        injection h with h
        rw [← h]
      · rw [hf] at h
        injection h with h
        rw [← h]

theorem uploadData_feed_error (path netloc : String) (running : Bool) (s : ULState)
    (data : List Nat) (h : uploadFeed s data = .error ()) :
    uploadData path netloc running s data = .error () := by
  unfold uploadData
  rw [h]

theorem uploadData_feed_ok (path netloc : String) (running : Bool) (s : ULState)
    (data : List Nat) (s1 : ULState) (h : uploadFeed s data = .ok s1) :
    uploadData path netloc running s data =
      match s1.content_bytes_received, s1.content_length with
      | some a, some b =>
        if a == b then
          if running then
            .ok ((uploadRequest path netloc { s1 with rx_buffer := PyBuf.ba [] }).1,
                 [(uploadRequest path netloc { s1 with rx_buffer := PyBuf.ba [] }).2])
          else .ok ({ s1 with rx_buffer := PyBuf.ba [] }, [])
        else .ok (s1, [])
      | _, _ => .error () := by
  unfold uploadData
  rw [h]

/-- One `data_received` call of the upload protocol reports only what a
re-issued request reports, and `bytes_sent` moves in lockstep with the
reports. -/
theorem uploadData_account (path netloc : String) (running : Bool) (s : ULState)
    (data : List Nat) {s' : ULState} {rs : List Nat}
    (h : uploadData path netloc running s data = .ok (s', rs)) :
    s'.bytes_sent = s.bytes_sent + rs.sum
    ∧ ∀ r ∈ rs, r = (uploadReq path netloc).length + uploadPayloadLen := by
  rcases hfe : uploadFeed s data with e | s1
  · cases e
    rw [uploadData_feed_error path netloc running s data hfe] at h
    exact Except.noConfusion h
  · rw [uploadData_feed_ok path netloc running s data s1 hfe] at h
    have hb : s1.bytes_sent = s.bytes_sent := uploadFeed_bytes hfe
    rcases hcbr : s1.content_bytes_received with _ | a
    · rw [hcbr] at h
      exact Except.noConfusion h
    · rcases hcl : s1.content_length with _ | b
      · rw [hcbr, hcl] at h
        exact Except.noConfusion h
      · rw [hcbr, hcl] at h
        have h' : (if a == b then
              (if running then
                (.ok ((uploadRequest path netloc { s1 with rx_buffer := PyBuf.ba [], content_length := some b, content_bytes_received := some a }).1,
                     [(uploadRequest path netloc { s1 with rx_buffer := PyBuf.ba [], content_length := some b, content_bytes_received := some a }).2]) : Except Unit (ULState × List Nat))
               else .ok ({ s1 with rx_buffer := PyBuf.ba [], content_length := some b, content_bytes_received := some a }, []))
            else .ok (s1, [])) = .ok (s', rs) := h
        by_cases hab : (a == b) = true
        · rw [if_pos hab] at h'
          by_cases hr : running = true
          · rw [if_pos hr] at h'
            injection h' with h1
            injection h1 with hA hB
            subst hA
            subst hB
            constructor
            · show s1.bytes_sent + ((uploadReq path netloc).length + uploadPayloadLen) = _
              rw [hb]
              simp [uploadRequest]
            · intro r hr'
              have : r = (uploadRequest path netloc { s1 with rx_buffer := PyBuf.ba [], content_length := some b, content_bytes_received := some a }).2 := by
                simpa using hr'
              rw [this]
              rfl
          · rw [if_neg hr] at h'
            injection h' with h1
            injection h1 with hA hB
            subst hA
            subst hB
            exact ⟨by simpa using hb, by intro r hr'; cases hr'⟩
        · rw [if_neg hab] at h'
          injection h' with h1
          injection h1 with hA hB
          subst hA
          subst hB
          exact ⟨by simpa using hb, by intro r hr'; cases hr'⟩

theorem runUploadGo_account (path netloc : String) :
    ∀ (events : List (Bool × List Nat)) (s : ULState) (reports : List Nat),
      s.bytes_sent = reports.sum →
      (∀ r ∈ reports, r = (uploadReq path netloc).length + uploadPayloadLen) →
      ∀ {s' : ULState} {reports' : List Nat},
      runUploadGo path netloc s reports events = .ok (s', reports') →
      s'.bytes_sent = reports'.sum
      ∧ ∀ r ∈ reports', r = (uploadReq path netloc).length + uploadPayloadLen := by
  intro events
  induction events with
  | nil =>
    intro s reports hinv hall s' reports' h
    have h' : (Except.ok (s, reports) : Except Unit (ULState × List Nat)) = .ok (s', reports') := h
    injection h' with h1
    injection h1 with hA hB
    subst hA
    subst hB
    exact ⟨hinv, hall⟩
  | cons e es ih =>
    intro s reports hinv hall s' reports' h
    have he : runUploadGo path netloc s reports (e :: es)
        = (match uploadData path netloc e.1 s e.2 with
           | .error err => .error err
           | .ok r => runUploadGo path netloc r.1 (reports ++ r.2) es) := rfl
    rw [he] at h
    rcases hupl : uploadData path netloc e.1 s e.2 with err | r
    · rw [hupl] at h
      exact Except.noConfusion h
    · rw [hupl] at h
      have h2 : runUploadGo path netloc r.1 (reports ++ r.2) es = .ok (s', reports') := h
      obtain ⟨hb, hrs⟩ := uploadData_account path netloc e.1 s e.2 hupl
      apply ih r.1 (reports ++ r.2) ?_ ?_ h2
      · rw [List.sum_append, ← hinv, hb]
      · intro x hx
        rcases List.mem_append.mp hx with hx' | hx'
        · exact hall x hx'
        · exact hrs x hx'

/-- C6: on every successful upload run, every byte count reported to the
monitor equals the length of the request line plus headers plus the fixed
65536-byte payload — reported at send time by `request` — and the
`bytes_sent` total the connection resolves with equals the sum of the
reports; response bytes are framed and drained but never reported and never
added to `bytes_sent`. -/
theorem upload_reporting (path netloc : String) (events : List (Bool × List Nat))
    (h : ∃ pr, runUpload path netloc events = .ok pr) :
    (∀ r ∈ runReports path netloc events, r = (uploadReq path netloc).length + uploadPayloadLen)
    ∧ runBytesSent path netloc events = (runReports path netloc events).sum
    ∧ runResolve path netloc events = (runReports path netloc events).sum := by
  obtain ⟨pr, hrun⟩ := h
  have hinit1 : (uploadRequest path netloc initUL).1.bytes_sent
      = [(uploadRequest path netloc initUL).2].sum := by
    show 0 + ((uploadReq path netloc).length + uploadPayloadLen) = _
    simp [uploadRequest]
  have hinit2 : ∀ r ∈ [(uploadRequest path netloc initUL).2],
      r = (uploadReq path netloc).length + uploadPayloadLen := by
    intro r hr
    have hr' : r = (uploadRequest path netloc initUL).2 := by simpa using hr
    rw [hr']
    rfl
  have hgo : runUploadGo path netloc (uploadRequest path netloc initUL).1
      [(uploadRequest path netloc initUL).2] events = .ok pr := hrun
  obtain ⟨hb, hall⟩ := runUploadGo_account path netloc events _ _ hinit1 hinit2 hgo
  refine ⟨?_, ?_, ?_⟩
  · unfold runReports
    rw [hrun]
    exact hall
  · unfold runBytesSent runReports
    rw [hrun]
    exact hb
  · unfold runResolve runReports
    rw [hrun]
    exact hb

/-- C6 (witness): one POST issued on connect against path `/u` and host `h`,
followed by a drained `Content-Length: 0` response with the monitor stopped:
exactly one report of 71 + 65536 bytes, equal to the resolved total. -/
theorem upload_reporting_witness :
    (∀ r ∈ runReports "/u" "h" [(false, hdrA)], r = (uploadReq "/u" "h").length + uploadPayloadLen)
    ∧ runBytesSent "/u" "h" [(false, hdrA)] = (runReports "/u" "h" [(false, hdrA)]).sum
    ∧ runResolve "/u" "h" [(false, hdrA)] = (runReports "/u" "h" [(false, hdrA)]).sum :=
  upload_reporting "/u" "h" [(false, hdrA)]
    ⟨(⟨65607, true, PyBuf.ba [], [65, 13, 10], some 0, some 0⟩, [65607]), by decide⟩

end St
